import Mathlib

/-!
Verification development for the material-osd atlas generator (gen.py).

The generator bakes an OSD sprite-sheet atlas.  Its core is a bounded
Euclidean distance transform over a 9x9 octagonal kernel
(euclidean_distance_transform), an outline/glow compositor driven by the
distance field (add_outline_via_euclidean_distance_transform /
apply_outline), a family of shape-primitive renderers, and a tile-atlas
placement scheme.  This file gives a shallow embedding of those parts and
proves properties about them.

Images are modelled as a width, a height, and a total pixel function; the
code only ever reads pixels inside the bounds it iterates over, so values
of the pixel function outside the bounds are irrelevant to the theorems
(they quantify over, or instantiate at, in-bounds coordinates).
-/

/-- TILE_WIDTH from gen.py line 18 (12 * 3 = 36). -/
def TILE_WIDTH : Nat := 12 * 3

/-- TILE_HEIGHT from gen.py line 19 (18 * 3 = 54). -/
def TILE_HEIGHT : Nat := 18 * 3

/-- TILES_PER_ROW from gen.py line 21. -/
def TILES_PER_ROW : Nat := 16

/-- An 8-bit RGBA sample (each channel 0..255 in valid images). -/
structure RGBA where
  r : Nat
  g : Nat
  b : Nat
  a : Nat
deriving DecidableEq

/-- A single-channel (PIL mode "L") image: width, height and a pixel map. -/
structure ImageL where
  width : Nat
  height : Nat
  pix : Nat → Nat → Nat

/-- An RGBA image: width, height and a pixel map. -/
structure ImageRGBA where
  width : Nat
  height : Nat
  pix : Nat → Nat → RGBA

/-- OCTAGON_PATTERN_9x9 from gen.py lines 699-709. -/
def OCTAGON_PATTERN_9x9 : List (List Nat) :=
  [[0, 0, 0, 1, 1, 1, 0, 0, 0],
   [0, 0, 1, 1, 1, 1, 1, 0, 0],
   [0, 1, 1, 1, 1, 1, 1, 1, 0],
   [1, 1, 1, 1, 1, 1, 1, 1, 1],
   [1, 1, 1, 1, 1, 1, 1, 1, 1],
   [1, 1, 1, 1, 1, 1, 1, 1, 1],
   [0, 1, 1, 1, 1, 1, 1, 1, 0],
   [0, 0, 1, 1, 1, 1, 1, 0, 0],
   [0, 0, 0, 1, 1, 1, 0, 0, 0]]

/-- Whether kernel cell (y2, x2) is active, i.e. the test
`OCTAGON_PATTERN_9x9[y2][x2] == 0: continue` at gen.py line 725 does
not skip it. -/
def octagonActive (y2 x2 : Nat) : Bool :=
  ((OCTAGON_PATTERN_9x9.getD y2 []).getD x2 0) != 0

/-- The foreground-mask threshold step
`Image.eval(img, lambda x: 255 if x > 100 else 0)` at gen.py line 713. -/
def maskImage (img : ImageL) : ImageL :=
  { img with pix := fun x y => if 100 < img.pix x y then 255 else 0 }

/-- One iteration of the inner kernel loop of euclidean_distance_transform
(gen.py lines 723-742) for centre pixel (x, y) and kernel cell (y2, x2):
returns `some dist` (with `dist = (x2 - 4)^2 + (y2 - 4)^2`) when the cell
is active, the neighbour `(x + x2 - 4, y + y2 - 4)` is inside the image
and the (already thresholded) mask is nonzero there, and `none` when any
of the `continue` branches fires. -/
def neighborDist (mask : ImageL) (x y y2 x2 : Nat) : Option Nat :=
  if octagonActive y2 x2 = false then none
  else
    let pixel_x : Int := (x : Int) + x2 - 4
    let pixel_y : Int := (y : Int) + y2 - 4
    if pixel_x < 0 ∨ (mask.width : Int) ≤ pixel_x then none
    else if pixel_y < 0 ∨ (mask.height : Int) ≤ pixel_y then none
    else if mask.pix pixel_x.toNat pixel_y.toNat = 0 then none
    else some (((x2 : Int) - 4).natAbs ^ 2 + ((y2 : Int) - 4).natAbs ^ 2)

/-- The kernel cells (y2, x2) in the iteration order of the two nested
`for` loops at gen.py lines 723-724. -/
def offsets9x9 : List (Nat × Nat) :=
  (List.range 9).flatMap fun y2 => (List.range 9).map fun x2 => (y2, x2)

/-- The running-minimum update `if min_dist is None or dist < min_dist`
at gen.py lines 741-742, applied to the outcome of one kernel cell. -/
def minStep (acc : Option Nat) (d : Option Nat) : Option Nat :=
  match d with
  | none => acc
  | some dist =>
    match acc with
    | none => some dist
    | some m => if dist < m then some dist else acc

/-- The value of `min_dist` after the two nested kernel loops of
euclidean_distance_transform (gen.py lines 721-742) for pixel (x, y). -/
def edtMinDist (mask : ImageL) (x y : Nat) : Option Nat :=
  offsets9x9.foldl (fun acc p => minStep acc (neighborDist mask x y p.1 p.2)) none

/-- euclidean_distance_transform (gen.py lines 712-749).  The input is
first thresholded into a binary mask; each output pixel is `min_dist`
when the Python truthiness test `if min_dist:` (line 744) succeeds, i.e.
when `min_dist` is neither `None` nor `0`, and 255 otherwise. -/
def euclidean_distance_transform (img : ImageL) : ImageL :=
  { width := img.width, height := img.height,
    pix := fun x y =>
      match edtMinDist (maskImage img) x y with
      | some m => if m = 0 then 255 else m
      | none => 255 }

/-- The list of squared offset distances of all kernel cells that are
active, in bounds and land on a foreground mask pixel: the quantities the
specification takes the minimum over. -/
def qualifyingDists (mask : ImageL) (x y : Nat) : List Nat :=
  offsets9x9.filterMap fun p => neighborDist mask x y p.1 p.2

/-- Minimum of a list of naturals, `none` on the empty list. -/
def specMin (l : List Nat) : Option Nat :=
  l.foldl (fun acc d =>
    match acc with
    | none => some d
    | some m => some (min m d)) none

theorem specMin_go (l : List Nat) (m : Nat) :
    l.foldl (fun acc d =>
      match acc with
      | none => some d
      | some m => some (min m d)) (some m) =
      some (l.foldl min m) := by
  induction l generalizing m with
  | nil => rfl
  | cons a l ih => simpa using ih (min m a)

theorem specMin_cons (a : Nat) (l : List Nat) :
    specMin (a :: l) = some (l.foldl min a) := by
  simpa [specMin] using specMin_go l a

theorem specMin_isSome (l : List Nat) (h : l ≠ []) : ∃ m, specMin l = some m := by
  cases l with
  | nil => exact absurd rfl h
  | cons a l => exact ⟨l.foldl min a, specMin_cons a l⟩

theorem foldl_min_mem (l : List Nat) (m : Nat) :
    l.foldl min m = m ∨ l.foldl min m ∈ l := by
  induction l generalizing m with
  | nil => exact Or.inl rfl
  | cons a l ih =>
    simp only [List.foldl_cons]
    rcases ih (min m a) with h | h
    · rcases Nat.le_total m a with hma | hma
      · exact Or.inl (h.trans (by omega))
      · exact Or.inr (by rw [h, show min m a = a by omega]; exact List.mem_cons_self a l)
    · exact Or.inr (List.mem_cons_of_mem a h)

theorem foldl_min_le (l : List Nat) (m : Nat) :
    l.foldl min m ≤ m ∧ ∀ d ∈ l, l.foldl min m ≤ d := by
  induction l generalizing m with
  | nil => exact ⟨Nat.le_refl m, by intro d hd; cases hd⟩
  | cons a l ih =>
    obtain ⟨h1, h2⟩ := ih (min m a)
    refine ⟨h1.trans (min_le_left m a), ?_⟩
    intro d hd
    rcases List.mem_cons.mp hd with rfl | hd
    · exact h1.trans (min_le_right m d)
    · exact h2 d hd

theorem specMin_mem (l : List Nat) (m : Nat) (h : specMin l = some m) : m ∈ l := by
  cases l with
  | nil => simp [specMin] at h
  | cons a l =>
    rw [specMin_cons] at h
    cases h
    rcases foldl_min_mem l a with h | h
    · rw [h]; exact List.mem_cons_self a l
    · exact List.mem_cons_of_mem a h

theorem specMin_le (l : List Nat) (m : Nat) (h : specMin l = some m) :
    ∀ d ∈ l, m ≤ d := by
  cases l with
  | nil => simp [specMin] at h
  | cons a l =>
    rw [specMin_cons] at h
    cases h
    intro d hd
    rcases List.mem_cons.mp hd with rfl | hd
    · exact (foldl_min_le l d).1
    · exact (foldl_min_le l a).2 d hd

theorem minStep_some (m d : Nat) : minStep (some m) (some d) = some (min m d) := by
  simp only [minStep]
  split
  · congr 1; omega
  · congr 1; omega

theorem foldl_minStep_eq_filterMap {α : Type} (f : α → Option Nat) (l : List α)
    (acc : Option Nat) :
    l.foldl (fun a p => minStep a (f p)) acc =
      (l.filterMap f).foldl (fun a d =>
        match a with
        | none => some d
        | some m => some (min m d)) acc := by
  induction l generalizing acc with
  | nil => rfl
  | cons p l ih =>
    simp only [List.foldl_cons, List.filterMap_cons]
    cases hf : f p with
    | none => simp only [minStep, hf]; exact ih acc
    | some d =>
      cases acc with
      | none => exact ih (some d)
      | some m =>
        rw [minStep_some]
        exact ih (some (min m d))

theorem edtMinDist_eq_specMin (mask : ImageL) (x y : Nat) :
    edtMinDist mask x y = specMin (qualifyingDists mask x y) := by
  unfold edtMinDist qualifyingDists specMin
  exact foldl_minStep_eq_filterMap _ offsets9x9 none

theorem mem_offsets9x9 (y2 x2 : Nat) : (y2, x2) ∈ offsets9x9 ↔ y2 < 9 ∧ x2 < 9 := by
  simp [offsets9x9, List.mem_flatMap, List.mem_map, List.mem_range]

theorem neighborDist_some_shape (mask : ImageL) (x y y2 x2 d : Nat)
    (h : neighborDist mask x y y2 x2 = some d) :
    d = ((x2 : Int) - 4).natAbs ^ 2 + ((y2 : Int) - 4).natAbs ^ 2 := by
  simp only [neighborDist] at h
  split at h
  · exact Option.noConfusion h
  · split at h
    · exact Option.noConfusion h
    · split at h
      · exact Option.noConfusion h
      · split at h
        · exact Option.noConfusion h
        · injection h with h; exact h.symm

/-- Helper: the distance-transform pixel value, expressed through the
minimum of the qualifying squared distances. -/
theorem edt_pix_spec (img : ImageL) (x y : Nat) :
    (euclidean_distance_transform img).pix x y =
      match specMin (qualifyingDists (maskImage img) x y) with
      | some m => if m = 0 then 255 else m
      | none => 255 := by
  show (match edtMinDist (maskImage img) x y with
        | some m => if m = 0 then 255 else m
        | none => 255) = _
  rw [edtMinDist_eq_specMin]

/-- C1 (amended): for every input image and every pixel (x, y), the
Bounded Distance Transform output at (x, y) is determined by the minimum
of dx^2 + dy^2 over all active octagon-kernel offsets whose neighbour is
in bounds and foreground: when no such neighbour exists, or when the
minimum is 0 (i.e. the pixel itself is foreground, which the code's
truthiness test `if min_dist:` conflates with "not found"), the output is
the sentinel 255; otherwise the output is that minimum. -/
theorem C1_edt_pixel_value (img : ImageL) (x y : Nat) :
    (euclidean_distance_transform img).pix x y =
      match specMin (qualifyingDists (maskImage img) x y) with
      | some m => if m = 0 then 255 else m
      | none => 255 :=
  edt_pix_spec img x y

/-- A 1x1 all-foreground mask input: the single pixel is its own active,
in-bounds, foreground neighbour at squared distance 0. -/
def maskAllFG : ImageL := { width := 1, height := 1, pix := fun _ _ => 255 }

/-- C1 (counterexample): on the 1x1 all-foreground input, a qualifying
neighbour exists and the minimum squared distance is 0, yet the produced
field value is the sentinel 255, not 0 as the claim states. -/
theorem C1_counterexample :
    specMin (qualifyingDists (maskImage maskAllFG) 0 0) = some 0 ∧
    (euclidean_distance_transform maskAllFG).pix 0 0 = 255 ∧
    (255 : Nat) ≠ 0 := by
  refine ⟨by decide, by decide, by decide⟩

/-- C5: every value of the produced distance field is either the sentinel
255 or a finite value in the range 1..32; in particular the value 0 never
occurs, so the sentinel never coincides with a reachable finite value. -/
theorem C5_field_range (img : ImageL) (x y : Nat) :
    (euclidean_distance_transform img).pix x y = 255 ∨
      (1 ≤ (euclidean_distance_transform img).pix x y ∧
        (euclidean_distance_transform img).pix x y ≤ 32) := by
  rw [edt_pix_spec]
  cases hmin : specMin (qualifyingDists (maskImage img) x y) with
  | none => exact Or.inl rfl
  | some m =>
    show (if m = 0 then 255 else m) = 255 ∨
      (1 ≤ (if m = 0 then 255 else m) ∧ (if m = 0 then 255 else m) ≤ 32)
    by_cases hm : m = 0
    · rw [if_pos hm]; exact Or.inl rfl
    · rw [if_neg hm]
      right
      have hmem := specMin_mem _ _ hmin
      obtain ⟨⟨y2, x2⟩, hp, hf⟩ := List.mem_filterMap.mp hmem
      have hrange := (mem_offsets9x9 y2 x2).mp hp
      have hshape := neighborDist_some_shape _ _ _ _ _ _ hf
      have hx2 : ((x2 : Int) - 4).natAbs ≤ 4 := by omega
      have hy2 : ((y2 : Int) - 4).natAbs ≤ 4 := by omega
      have hb : m ≤ 32 := by
        rw [hshape]
        calc ((x2 : Int) - 4).natAbs ^ 2 + ((y2 : Int) - 4).natAbs ^ 2
            ≤ 4 ^ 2 + 4 ^ 2 :=
              Nat.add_le_add (Nat.pow_le_pow_left hx2 2) (Nat.pow_le_pow_left hy2 2)
          _ = 32 := by norm_num
      exact ⟨by omega, hb⟩

/-- C7: the foreground-mask extractor marks a pixel foreground (255) iff
its input value is strictly greater than 100, and background (0) iff the
value is at most 100; in particular 100 maps to background and 101 to
foreground. -/
theorem C7_mask_threshold (img : ImageL) (x y : Nat) :
    ((maskImage img).pix x y = 255 ↔ 100 < img.pix x y) ∧
    ((maskImage img).pix x y = 0 ↔ img.pix x y ≤ 100) := by
  show ((if 100 < img.pix x y then 255 else 0) = 255 ↔ _) ∧
    ((if 100 < img.pix x y then 255 else 0) = 0 ↔ _)
  constructor <;> split <;> omega

/-- Ceiling integer square root: the least k with n ≤ k * k. -/
def ceilSqrt (n : Nat) : Nat :=
  if Nat.sqrt n * Nat.sqrt n = n then Nat.sqrt n else Nat.sqrt n + 1

/-- Per-pixel glow value of the outline layer before attenuation,
from the loop body of add_outline_via_euclidean_distance_transform
(gen.py lines 671-682): `continue` when the field value e is the sentinel
255 (leaving the initial 0); 255 when e <= radius**2; otherwise, with
dist = math.sqrt(e), the value int((1 - (dist - radius)) * 255) when
dist < radius + 1, else 0.  The float branch is encoded exactly in
integers: dist < radius + 1 holds iff e < (radius + 1)^2, and for
radius^2 < e < (radius + 1)^2 the expression (1 - (sqrt(e) - radius))*255
lies strictly between 0 and 255, so Python's int() truncation is the
floor, and the floor of (radius+1)*255 - 255*sqrt(e) equals
(radius+1)*255 - ceil(sqrt(e * 255^2)).  (math.sqrt on an integer
argument below 2^53 is correctly rounded, and none of the compared or
floored quantities falls within one double ulp of a boundary, so the
double computation and the real-number computation agree; the theorem
outlineValue_eq_sqrt_formula below proves this encoding equal to the
real-number formula for radius 3.) -/
def outlineValue (radius e : Nat) : Nat :=
  if e = 255 then 0
  else if e ≤ radius ^ 2 then 255
  else if e < (radius + 1) ^ 2 then (radius + 1) * 255 - ceilSqrt (e * 255 ^ 2)
  else 0

/-- The glow ("outline") layer of add_outline_via_euclidean_distance_transform
before the 33% attenuation (gen.py lines 664-682): a mode-"L" image, one
glow value per pixel of the input image, driven by the distance field. -/
def outlineLayer (img : ImageRGBA) (euclid : ImageL) (radius : Nat) : ImageL :=
  { width := img.width, height := img.height,
    pix := fun x y => outlineValue radius (euclid.pix x y) }

/-- Round num/den to the nearest natural, ties to even. -/
def roundHalfEven (num den : Nat) : Nat :=
  if den < 2 * (num % den) then num / den + 1
  else if 2 * (num % den) < den then num / den
  else if num / den % 2 = 0 then num / den else num / den + 1

/-- The 33% attenuation `Image.eval(outline, lambda x: x * 0.33)` at
gen.py line 688.  Pillow's point/eval builds the lookup table as
round(x * 0.33) with Python round (half to even).  For every x in 0..255
this equals the half-to-even rounding of the exact rational 33*x/100:
the only ties are x in {50, 150, 250}, where the double product rounds to
exactly the tie value, and away from ties the accumulated float error
(below 5e-15) cannot bridge the 0.005 minimum distance to a
half-integer boundary. -/
def attenuate (v : Nat) : Nat := roundHalfEven (v * 33) 100

/-- SHIFTFORDIV255 from Pillow's Imaging.h, the approximate division by
255 used by alpha compositing: ((a >> 8) + a) >> 8. -/
def shiftForDiv255 (a : Nat) : Nat := ((a >>> 8) + a) >>> 8

/-- One pixel of PIL alpha compositing (libImaging/AlphaComposite.c,
Pillow 9.x): source-over of `src` on top of `dst` with 8-bit channels and
PRECISION_BITS = 7, so 0x80 << PRECISION_BITS = 128 * 128.  When the
source alpha is 0 the destination pixel is copied unchanged. -/
def alphaCompositePixel (dst src : RGBA) : RGBA :=
  if src.a = 0 then dst
  else
    let blend := dst.a * (255 - src.a)
    let outa255 := src.a * 255 + blend
    let coef1 := src.a * 255 * 255 * 128 / outa255
    let coef2 := 255 * 128 - coef1
    { r := shiftForDiv255 (src.r * coef1 + dst.r * coef2 + 128 * 128) >>> 7,
      g := shiftForDiv255 (src.g * coef1 + dst.g * coef2 + 128 * 128) >>> 7,
      b := shiftForDiv255 (src.b * coef1 + dst.b * coef2 + 128 * 128) >>> 7,
      a := shiftForDiv255 (outa255 + 128) }

/-- add_outline_via_euclidean_distance_transform (gen.py lines 660-696):
builds the glow layer from the distance field, attenuates it to 33%,
merges it into an RGBA layer of black pixels whose alpha is the
attenuated glow, and alpha-composites the original image on top. -/
def add_outline_via_euclidean_distance_transform
    (img : ImageRGBA) (euclid : ImageL) (radius : Nat) : ImageRGBA :=
  { width := img.width, height := img.height,
    pix := fun x y =>
      alphaCompositePixel
        { r := 0, g := 0, b := 0,
          a := attenuate ((outlineLayer img euclid radius).pix x y) }
        (img.pix x y) }

/-- The alpha channel `img.getchannel("A")` of an RGBA image. -/
def getchannelA (img : ImageRGBA) : ImageL :=
  { width := img.width, height := img.height, pix := fun x y => (img.pix x y).a }

/-- apply_outline (gen.py lines 100-104); the call site relies on the
default radius 3 of add_outline_via_euclidean_distance_transform. -/
def apply_outline (img : ImageRGBA) : ImageRGBA :=
  add_outline_via_euclidean_distance_transform img
    (euclidean_distance_transform (getchannelA img)) 3

theorem ceilSqrt_eq_ceil_sqrt (n : Nat) : ⌈Real.sqrt n⌉ = (ceilSqrt n : ℤ) := by
  have h1 : Nat.sqrt n * Nat.sqrt n ≤ n := Nat.sqrt_le n
  have h2 : n < (Nat.sqrt n + 1) * (Nat.sqrt n + 1) := Nat.lt_succ_sqrt n
  unfold ceilSqrt
  by_cases hsq : Nat.sqrt n * Nat.sqrt n = n
  · have hval : Real.sqrt n = (Nat.sqrt n : ℝ) := by
      have hn : (n : ℝ) = (Nat.sqrt n : ℝ) * (Nat.sqrt n : ℝ) := by exact_mod_cast hsq.symm
      rw [show (n : ℝ) = ((Nat.sqrt n : ℝ)) ^ 2 by rw [hn]; ring]
      exact Real.sqrt_sq (by positivity)
    rw [hval, if_pos hsq, Int.ceil_natCast]
  · rw [if_neg hsq]
    have hlt : (Nat.sqrt n : ℝ) < Real.sqrt n := by
      rw [Real.lt_sqrt (by positivity)]
      have hlt2 : Nat.sqrt n * Nat.sqrt n < n := lt_of_le_of_ne h1 hsq
      have : ((Nat.sqrt n * Nat.sqrt n : ℕ) : ℝ) < (n : ℝ) := by exact_mod_cast hlt2
      push_cast at this
      nlinarith [this]
    have hle : Real.sqrt n ≤ (Nat.sqrt n : ℝ) + 1 := by
      have hcast : (n : ℝ) ≤ ((Nat.sqrt n : ℝ) + 1) ^ 2 := by
        have : (n : ℝ) < (((Nat.sqrt n + 1) * (Nat.sqrt n + 1) : ℕ) : ℝ) := by
          exact_mod_cast h2
        push_cast at this
        nlinarith [this]
      calc Real.sqrt n ≤ Real.sqrt (((Nat.sqrt n : ℝ) + 1) ^ 2) := Real.sqrt_le_sqrt hcast
        _ = (Nat.sqrt n : ℝ) + 1 := Real.sqrt_sq (by positivity)
    rw [Int.ceil_eq_iff]
    push_cast
    constructor
    · linarith
    · linarith

theorem ceilSqrt_le_of_le_sq (m k : Nat) (h : m ≤ k * k) : ceilSqrt m ≤ k := by
  have h1 : Nat.sqrt m * Nat.sqrt m ≤ m := Nat.sqrt_le m
  unfold ceilSqrt
  by_cases hsq : Nat.sqrt m * Nat.sqrt m = m
  · rw [if_pos hsq]
    by_contra hc
    push_neg at hc
    have hk1 : k + 1 ≤ Nat.sqrt m := hc
    have : (k + 1) * (k + 1) ≤ Nat.sqrt m * Nat.sqrt m := Nat.mul_le_mul hk1 hk1
    nlinarith
  · rw [if_neg hsq]
    by_contra hc
    push_neg at hc
    have hk : k ≤ Nat.sqrt m := by omega
    have : k * k ≤ Nat.sqrt m * Nat.sqrt m := Nat.mul_le_mul hk hk
    have hmeq : Nat.sqrt m * Nat.sqrt m = m := le_antisymm h1 (by omega)
    exact hsq hmeq

theorem outlineValue_eq_sqrt_formula (e : Nat) :
    ((outlineValue 3 e : Nat) : ℤ) =
      if e = 255 then 0
      else if e ≤ 9 then 255
      else if Real.sqrt e < 4 then ⌊(1 - (Real.sqrt e - 3)) * 255⌋
      else 0 := by
  unfold outlineValue
  simp only [show (3 : ℕ) ^ 2 = 9 from by norm_num,
    show ((3 : ℕ) + 1) ^ 2 = 16 from by norm_num,
    show ((3 : ℕ) + 1) * 255 = 1020 from by norm_num,
    show (255 : ℕ) ^ 2 = 65025 from by norm_num]
  by_cases h255 : e = 255
  · rw [if_pos h255, if_pos h255]; rfl
  · rw [if_neg h255, if_neg h255]
    by_cases h9 : e ≤ 9
    · rw [if_pos h9, if_pos h9]; rfl
    · rw [if_neg h9, if_neg h9]
      have hcond : Real.sqrt e < 4 ↔ e < 16 := by
        rw [Real.sqrt_lt' (by norm_num : (0:ℝ) < 4),
          show (4:ℝ) ^ 2 = ((16 : ℕ) : ℝ) by norm_num]
        exact Nat.cast_lt
      by_cases h16 : e < 16
      · rw [if_pos h16, if_pos (hcond.mpr h16)]
        have hle : ceilSqrt (e * 65025) ≤ 1020 :=
          ceilSqrt_le_of_le_sq _ 1020 (by omega)
        have hmul : Real.sqrt ((e * 65025 : ℕ) : ℝ) = Real.sqrt e * 255 := by
          push_cast
          rw [Real.sqrt_mul (by positivity) 65025,
            show (65025:ℝ) = 255 ^ 2 by norm_num,
            Real.sqrt_sq (by norm_num : (0:ℝ) ≤ 255)]
        have hfl : ⌊(1 - (Real.sqrt e - 3)) * 255⌋ =
            1020 - ⌈Real.sqrt ((e * 65025 : ℕ) : ℝ)⌉ := by
          rw [show (1 - (Real.sqrt e - 3)) * 255 =
              ((1020 : ℤ) : ℝ) + (-(Real.sqrt e * 255)) by push_cast; ring]
          rw [Int.floor_int_add, Int.floor_neg, hmul]
          ring
        rw [hfl, ceilSqrt_eq_ceil_sqrt, Nat.cast_sub hle]
        push_cast
        ring
      · rw [if_neg h16, if_neg (by rw [hcond]; omega)]
        rfl

/-- C2 (amended): for every image and distance field, with radius 3, the
glow-layer value (before the global 33% attenuation) at a pixel whose
distance-field value is d is: 0 when d = 255 (the sentinel); 255 when
d <= 9 = radius^2; the floor (Python int() truncation, not rounding to
nearest) of (1 - (sqrt d - 3)) * 255 when d > 9 and sqrt d < 4; and 0
otherwise. -/
theorem C2_glow_layer_value (img : ImageRGBA) (euclid : ImageL) (x y : Nat) :
    (((outlineLayer img euclid 3).pix x y : Nat) : ℤ) =
      if euclid.pix x y = 255 then 0
      else if euclid.pix x y ≤ 9 then 255
      else if Real.sqrt (euclid.pix x y) < 4 then
        ⌊(1 - (Real.sqrt (euclid.pix x y) - 3)) * 255⌋
      else 0 :=
  outlineValue_eq_sqrt_formula (euclid.pix x y)

/-- A 2x4 sprite whose only foreground pixel is at (0, 0): pixel (1, 3)
then has distance-field value 1^2 + 3^2 = 10. -/
def imgC2 : ImageRGBA :=
  { width := 2, height := 4,
    pix := fun x y =>
      if x = 0 ∧ y = 0 then { r := 255, g := 255, b := 255, a := 255 }
      else { r := 0, g := 0, b := 0, a := 0 } }

/-- C2 (counterexample): at a pixel whose distance-field value is 10 the
code produces glow value 213 = int((1 - (sqrt 10 - 3)) * 255) (truncation),
whereas the claimed round((1 - (sqrt 10 - 3)) * 255) is 214. -/
theorem C2_counterexample :
    (euclidean_distance_transform (getchannelA imgC2)).pix 1 3 = 10 ∧
    (outlineLayer imgC2 (euclidean_distance_transform (getchannelA imgC2)) 3).pix 1 3 = 213 ∧
    round ((1 - (Real.sqrt 10 - 3)) * 255 : ℝ) = 214 := by
  have h10 : (euclidean_distance_transform (getchannelA imgC2)).pix 1 3 = 10 := by decide
  refine ⟨h10, ?_, ?_⟩
  · have hc : ceilSqrt (10 * 255 ^ 2) = 807 := by
      have hsq : Nat.sqrt 650250 = 806 := by
        have hlo : 806 ≤ Nat.sqrt 650250 := Nat.le_sqrt.mpr (by norm_num)
        have hhi : Nat.sqrt 650250 < 807 := Nat.sqrt_lt.mpr (by norm_num)
        omega
      unfold ceilSqrt
      rw [show (10 : ℕ) * 255 ^ 2 = 650250 by norm_num, hsq]
      norm_num
    show outlineValue 3 ((euclidean_distance_transform (getchannelA imgC2)).pix 1 3) = 213
    rw [h10]
    unfold outlineValue
    rw [hc]
    norm_num
  · rw [round_eq]
    have h1 : Real.sqrt 10 ^ 2 = 10 := Real.sq_sqrt (by norm_num)
    have h2 : (0:ℝ) ≤ Real.sqrt 10 := Real.sqrt_nonneg 10
    have hlo : (3.159 : ℝ) < Real.sqrt 10 := by nlinarith
    have hhi : Real.sqrt 10 < 3.1623 := by nlinarith
    rw [Int.floor_eq_iff]
    constructor
    · push_cast; nlinarith
    · push_cast; nlinarith

/-- Validity of an 8-bit pixel: every channel is at most 255 (every PIL
RGBA image satisfies this; the embedding uses unbounded naturals, so
theorems about compositing assume it explicitly). -/
abbrev validPixel (p : RGBA) : Prop := p.r ≤ 255 ∧ p.g ≤ 255 ∧ p.b ≤ 255 ∧ p.a ≤ 255

set_option maxRecDepth 4000 in
theorem comp_channel_exact :
    ∀ s : Nat, s < 256 → shiftForDiv255 (s * 32640 + 16384) >>> 7 = s := by decide

set_option maxRecDepth 4000 in
theorem comp_alpha_exact :
    ∀ a : Nat, a < 256 → shiftForDiv255 (a * 255 + 128) = a := by decide

/-- Compositing any valid pixel with nonzero alpha over a fully
transparent destination returns the source pixel exactly. -/
theorem alphaComposite_transparent_dst (p : RGBA) (hv : validPixel p) (ha : p.a ≠ 0) :
    alphaCompositePixel { r := 0, g := 0, b := 0, a := 0 } p = p := by
  obtain ⟨hr, hg, hb, hA⟩ := hv
  obtain ⟨r, g, b, a⟩ := p
  simp only at hr hg hb hA ha
  simp only [alphaCompositePixel, if_neg ha]
  have hblend : (0 : Nat) * (255 - a) = 0 := by ring
  have houta : a * 255 + 0 * (255 - a) = a * 255 := by ring
  have hcoef1 : a * 255 * 255 * 128 / (a * 255 + 0 * (255 - a)) = 32640 := by
    rw [houta, show a * 255 * 255 * 128 = (a * 255) * 32640 by ring]
    exact Nat.mul_div_cancel_left _ (by omega)
  rw [hcoef1, houta]
  have hcoef2 : 255 * 128 - 32640 = 0 := by norm_num
  rw [hcoef2]
  simp only [Nat.mul_zero, Nat.add_zero, Nat.zero_add]
  rw [show r * 32640 + 0 + 128 * 128 = r * 32640 + 16384 by ring,
    show g * 32640 + 0 + 128 * 128 = g * 32640 + 16384 by ring,
    show b * 32640 + 0 + 128 * 128 = b * 32640 + 16384 by ring]
  rw [comp_channel_exact r (by omega), comp_channel_exact g (by omega),
    comp_channel_exact b (by omega), comp_alpha_exact a (by omega)]

/-- The centre kernel cell (4, 4) of a foreground, in-bounds pixel
qualifies with squared distance 0. -/
theorem neighborDist_center (mask : ImageL) (x y : Nat)
    (hx : x < mask.width) (hy : y < mask.height) (hfg : mask.pix x y ≠ 0) :
    neighborDist mask x y 4 4 = some 0 := by
  have hxi : ((x : Int) + (4 : Nat) - 4) = (x : Int) := by ring
  have hyi : ((y : Int) + (4 : Nat) - 4) = (y : Int) := by ring
  simp only [neighborDist, hxi, hyi]
  rw [if_neg (by decide : ¬octagonActive 4 4 = false)]
  rw [if_neg (by omega : ¬((x : Int) < 0 ∨ (mask.width : Int) ≤ (x : Int)))]
  rw [if_neg (by omega : ¬((y : Int) < 0 ∨ (mask.height : Int) ≤ (y : Int)))]
  rw [if_neg (by rwa [Int.toNat_natCast, Int.toNat_natCast])]
  decide

/-- A foreground pixel always receives the sentinel 255 in the distance
field: its own minimum distance is 0, and the truthiness test turns a
zero minimum into the sentinel. -/
theorem edt_fg_sentinel (img : ImageL) (x y : Nat)
    (hx : x < img.width) (hy : y < img.height) (hfg : 100 < img.pix x y) :
    (euclidean_distance_transform img).pix x y = 255 := by
  rw [edt_pix_spec]
  have h0 : (0 : Nat) ∈ qualifyingDists (maskImage img) x y := by
    apply List.mem_filterMap.mpr
    refine ⟨(4, 4), (mem_offsets9x9 4 4).mpr (by omega), ?_⟩
    apply neighborDist_center (maskImage img) x y hx hy
    show (if 100 < img.pix x y then 255 else 0) ≠ 0
    rw [if_pos hfg]
    omega
  obtain ⟨m, hm⟩ := specMin_isSome (qualifyingDists (maskImage img) x y)
    (by intro hnil; rw [hnil] at h0; cases h0)
  have hm0 : m = 0 := Nat.le_zero.mp (specMin_le _ _ hm 0 h0)
  rw [hm, hm0]
  rfl

/-- If every in-bounds pixel of the input is at most 100 (all background
after thresholding), the distance field is the sentinel 255 everywhere. -/
theorem edt_bg_sentinel (img : ImageL) (x y : Nat)
    (hbg : ∀ u, u < img.width → ∀ v, v < img.height → img.pix u v ≤ 100) :
    (euclidean_distance_transform img).pix x y = 255 := by
  rw [edt_pix_spec]
  have hnil : qualifyingDists (maskImage img) x y = [] := by
    apply List.filterMap_eq_nil_iff.mpr
    intro p hp
    simp only [neighborDist]
    split
    · rfl
    · split
      · rfl
      · split
        · rfl
        · split
          · rfl
          · rename_i hcx hcy hmask
            exfalso
            apply hmask
            rw [show (maskImage img).width = img.width from rfl] at hcx
            rw [show (maskImage img).height = img.height from rfl] at hcy
            have hxb : 0 ≤ (x : Int) + p.2 - 4 ∧ (x : Int) + p.2 - 4 < (img.width : Int) := by
              constructor <;> omega
            have hyb : 0 ≤ (y : Int) + p.1 - 4 ∧ (y : Int) + p.1 - 4 < (img.height : Int) := by
              constructor <;> omega
            show (if 100 < img.pix ((x : Int) + p.2 - 4).toNat ((y : Int) + p.1 - 4).toNat
              then 255 else 0) = 0
            rw [if_neg]
            push_neg
            exact hbg _ (by omega) _ (by omega)
  rw [hnil]
  rfl

/-- C6: the Outline Compositor's output has the same width and height as
the input, and every original foreground pixel (alpha strictly above the
mask threshold 100) is carried through unchanged: a foreground pixel is
its own nearest foreground neighbour, so the truthiness test gives it the
sentinel, the glow layer is fully transparent there, and compositing the
original over a transparent destination returns it exactly. -/
theorem C6_foreground_preserved (img : ImageRGBA) (x y : Nat)
    (hx : x < img.width) (hy : y < img.height)
    (hv : validPixel (img.pix x y)) (hfg : 100 < (img.pix x y).a) :
    (apply_outline img).width = img.width ∧
    (apply_outline img).height = img.height ∧
    (apply_outline img).pix x y = img.pix x y := by
  refine ⟨rfl, rfl, ?_⟩
  show alphaCompositePixel
    { r := 0, g := 0, b := 0,
      a := attenuate (outlineValue 3
        ((euclidean_distance_transform (getchannelA img)).pix x y)) }
    (img.pix x y) = img.pix x y
  rw [edt_fg_sentinel (getchannelA img) x y hx hy hfg]
  rw [show attenuate (outlineValue 3 255) = 0 from rfl]
  exact alphaComposite_transparent_dst (img.pix x y) hv (by omega)

/-- A 1x1 image with a single fully opaque foreground pixel. -/
def imgC6 : ImageRGBA :=
  { width := 1, height := 1, pix := fun _ _ => { r := 10, g := 20, b := 30, a := 200 } }

/-- C6 (witness): on a concrete 1x1 foreground image the outline pass
keeps the pixel bit-identical. -/
theorem C6_witness : (apply_outline imgC6).pix 0 0 = imgC6.pix 0 0 :=
  (C6_foreground_preserved imgC6 0 0 (by decide) (by decide)
    ⟨by decide, by decide, by decide, by decide⟩ (by decide)).2.2

/-- C3 (amended): for an input whose alpha channel is everywhere at most
100, the glow layer is fully transparent (value 0 both before and after
attenuation), and the output pixel equals the input pixel wherever the
input alpha is nonzero; an input pixel with alpha 0 is replaced by
transparent black (0, 0, 0, 0) by the compositing step, so the output is
pixel-identical to the input only up to the colour channels hidden under
alpha 0. -/
theorem C3_empty_mask (img : ImageRGBA)
    (hbg : ∀ u, u < img.width → ∀ v, v < img.height → (img.pix u v).a ≤ 100)
    (hv : ∀ u, u < img.width → ∀ v, v < img.height → validPixel (img.pix u v))
    (x y : Nat) (hx : x < img.width) (hy : y < img.height) :
    (outlineLayer img (euclidean_distance_transform (getchannelA img)) 3).pix x y = 0 ∧
    attenuate ((outlineLayer img (euclidean_distance_transform (getchannelA img)) 3).pix x y)
      = 0 ∧
    (apply_outline img).pix x y =
      (if (img.pix x y).a = 0 then { r := 0, g := 0, b := 0, a := 0 } else img.pix x y) := by
  have h255 : (euclidean_distance_transform (getchannelA img)).pix x y = 255 :=
    edt_bg_sentinel (getchannelA img) x y (fun u hu v hv2 => hbg u hu v hv2)
  have hglow : (outlineLayer img (euclidean_distance_transform (getchannelA img)) 3).pix x y
      = 0 := by
    show outlineValue 3 ((euclidean_distance_transform (getchannelA img)).pix x y) = 0
    rw [h255]
    rfl
  refine ⟨hglow, by rw [hglow]; rfl, ?_⟩
  show alphaCompositePixel
    { r := 0, g := 0, b := 0,
      a := attenuate (outlineValue 3
        ((euclidean_distance_transform (getchannelA img)).pix x y)) }
    (img.pix x y) = _
  rw [h255, show attenuate (outlineValue 3 255) = 0 from rfl]
  by_cases ha : (img.pix x y).a = 0
  · rw [if_pos ha]
    show (if (img.pix x y).a = 0 then _ else _) = _
    rw [if_pos ha]
  · rw [if_neg ha]
    exact alphaComposite_transparent_dst (img.pix x y) (hv x hx y hy) ha

/-- A 1x1 all-background image whose zero-alpha pixel carries nonzero
colour channels. -/
def imgC3bad : ImageRGBA :=
  { width := 1, height := 1, pix := fun _ _ => { r := 200, g := 0, b := 0, a := 0 } }

/-- C3 (counterexample): a 1x1 input with alpha 0 everywhere (hence an
all-background mask) but red channel 200 is not carried through
pixel-identically: alpha compositing replaces the zero-alpha source pixel
by the transparent black destination pixel. -/
theorem C3_counterexample :
    (∀ u, u < imgC3bad.width → ∀ v, v < imgC3bad.height → (imgC3bad.pix u v).a ≤ 100) ∧
    (apply_outline imgC3bad).pix 0 0 = { r := 0, g := 0, b := 0, a := 0 } ∧
    (apply_outline imgC3bad).pix 0 0 ≠ imgC3bad.pix 0 0 := by
  refine ⟨by decide, by decide, by decide⟩

/-- A 1x1 all-background image with a semi-transparent (alpha 50) pixel. -/
def imgC3ok : ImageRGBA :=
  { width := 1, height := 1, pix := fun _ _ => { r := 7, g := 8, b := 9, a := 50 } }

/-- C3 (witness): the amended statement applied to a concrete 1x1
all-background image. -/
theorem C3_witness :
    (outlineLayer imgC3ok (euclidean_distance_transform (getchannelA imgC3ok)) 3).pix 0 0 = 0 ∧
    attenuate ((outlineLayer imgC3ok
      (euclidean_distance_transform (getchannelA imgC3ok)) 3).pix 0 0) = 0 ∧
    (apply_outline imgC3ok).pix 0 0 =
      (if (imgC3ok.pix 0 0).a = 0 then { r := 0, g := 0, b := 0, a := 0 }
       else imgC3ok.pix 0 0) :=
  C3_empty_mask imgC3ok (by decide)
    (fun u _ v _ => show validPixel { r := 7, g := 8, b := 9, a := 50 } from
      ⟨by decide, by decide, by decide, by decide⟩)
    0 0 (by decide) (by decide)

/-- A 2x1 sprite: one opaque white foreground pixel next to one fully
transparent pixel. -/
def imgC10 : ImageRGBA :=
  { width := 2, height := 1,
    pix := fun x y =>
      if x = 0 ∧ y = 0 then { r := 255, g := 255, b := 255, a := 255 }
      else { r := 0, g := 0, b := 0, a := 0 } }

/-- C10: the mask/distance/outline chain is not idempotent: on a sprite
with a foreground pixel, the first pass paints glow alpha 84 next to the
sprite, and a second pass composites fresh glow under that glow pixel,
raising its alpha to 140, so the doubly processed image differs. -/
theorem C10_not_idempotent :
    apply_outline (apply_outline imgC10) ≠ apply_outline imgC10 := by
  intro h
  have h2 : ((apply_outline (apply_outline imgC10)).pix 1 0).a
      = ((apply_outline imgC10).pix 1 0).a := by rw [h]
  revert h2
  decide

/-- Coordinate dispatch of IconStickOverlay.generate (gen.py lines
215-224): selects the dot centre for the given position string
(x_middle = TILE_WIDTH // 2 and a tile-relative height), or raises
ValueError for an unrecognised position.  The subsequent ellipse drawing
and outline pass (gen.py lines 226-234) operate on the selected centre
and are abstracted to returning it; the error path returns before any
drawing. -/
def IconStickOverlay.generateCenter (position : String) : Except String (ℚ × ℚ) :=
  let x_middle : ℚ := ((TILE_WIDTH / 2 : Nat) : ℚ)
  if position = "high" then Except.ok (x_middle, (TILE_HEIGHT : ℚ) * 0.2)
  else if position = "middle" then Except.ok (x_middle, (TILE_HEIGHT : ℚ) * 0.5)
  else if position = "low" then Except.ok (x_middle, (TILE_HEIGHT : ℚ) * 0.8)
  else Except.error ("Invalid position: " ++ position)

/-- Coordinate dispatch of IconBarCap.generate (gen.py lines 350-362):
selects the cap line endpoints for the given side string, or raises
ValueError for an unrecognised side.  The line drawing and outline pass
(gen.py lines 364-370) are abstracted to returning the endpoints. -/
def IconBarCap.generateCoords (side : String) : Except String ((ℚ × ℚ) × (ℚ × ℚ)) :=
  if side = "left" then
    Except.ok (((TILE_WIDTH : ℚ) - 1.5, (TILE_HEIGHT : ℚ) * 0.25 - 1.5),
      ((TILE_WIDTH : ℚ) - 1.5, (TILE_HEIGHT : ℚ) * 0.75 + 1))
  else if side = "right" then
    Except.ok ((1.5, (TILE_HEIGHT : ℚ) * 0.25 - 1.5),
      (1.5, (TILE_HEIGHT : ℚ) * 0.75 + 1))
  else Except.error ("Invalid side: " ++ side)

/-- A filled rectangle, by its two corner coordinates. -/
structure BarRect where
  x0 : ℚ
  y0 : ℚ
  x1 : ℚ
  y1 : ℚ
deriving DecidableEq

/-- Section dispatch of IconBar.generate (gen.py lines 377-403): the
if/elif chain selects which rectangle (if any) to fill before the two
horizontal boundary lines are drawn (the Python parameter is named
section, a reserved word here).  Unlike the position/side dispatch
above, this chain has NO else branch raising an error: an unrecognised
section string matches no branch and falls through drawing no rectangle,
exactly like the "empty" section.  The rectangle fill is abstracted to
returning the selected rectangle; the boundary lines and the outline
pass (gen.py lines 405-427) are drawn in every case afterwards. -/
def IconBar.generateRect (sect : String) : Except String (Option BarRect) :=
  if sect = "full" then
    Except.ok (some ⟨-10, (TILE_HEIGHT : ℚ) * 0.25, (TILE_WIDTH : ℚ) + 10,
      (TILE_HEIGHT : ℚ) * 0.75⟩)
  else if sect = "half_full" then
    Except.ok (some ⟨-10, (TILE_HEIGHT : ℚ) * 0.25, (TILE_WIDTH : ℚ) / 2,
      (TILE_HEIGHT : ℚ) * 0.75⟩)
  else if sect = "empty" then Except.ok none
  else if sect = "end" then
    Except.ok (some ⟨-10, (TILE_HEIGHT : ℚ) * 0.25, 2, (TILE_HEIGHT : ℚ) * 0.75⟩)
  else Except.ok none

/-- C4 (amended): an unrecognised position for the stick-overlay dot and
an unrecognised side for the bar cap fail fast with a ValueError before
anything is drawn; but an unrecognised section for the bar segment does
NOT fail: it silently falls through the if/elif chain and renders exactly
like the "empty" section (boundary lines only). -/
theorem C4_enum_dispatch :
    (∀ p : String, p ≠ "high" → p ≠ "middle" → p ≠ "low" →
      IconStickOverlay.generateCenter p = Except.error ("Invalid position: " ++ p)) ∧
    (∀ s : String, s ≠ "left" → s ≠ "right" →
      IconBarCap.generateCoords s = Except.error ("Invalid side: " ++ s)) ∧
    (∀ sec : String, sec ≠ "full" → sec ≠ "half_full" → sec ≠ "empty" → sec ≠ "end" →
      IconBar.generateRect sec = Except.ok none ∧
        IconBar.generateRect sec = IconBar.generateRect "empty") := by
  refine ⟨?_, ?_, ?_⟩
  · intro p h1 h2 h3
    simp only [IconStickOverlay.generateCenter, if_neg h1, if_neg h2, if_neg h3]
  · intro s h1 h2
    simp only [IconBarCap.generateCoords, if_neg h1, if_neg h2]
  · intro sec h1 h2 h3 h4
    constructor
    · simp only [IconBar.generateRect, if_neg h1, if_neg h2, if_neg h3, if_neg h4]
    · simp only [IconBar.generateRect, if_neg h1, if_neg h2, if_neg h3, if_neg h4]
      rfl

/-- An enum value outside every recognised set. -/
def bogusEnum : String := "diagonal"

/-- C4 (counterexample): with the unrecognised section string "diagonal"
the bar-segment renderer does not error: it returns successfully with no
rectangle, identical to the "empty" section, i.e. a silent fallback. -/
theorem C4_counterexample :
    IconBar.generateRect bogusEnum = Except.ok none ∧
    IconBar.generateRect bogusEnum = IconBar.generateRect "empty" ∧
    (∀ e : String, IconBar.generateRect bogusEnum ≠ Except.error e) := by
  refine ⟨rfl, rfl, ?_⟩
  intro e
  rw [show IconBar.generateRect bogusEnum = Except.ok none from rfl]
  intro hcontra
  exact Except.noConfusion hcontra

/-- A second unrecognised enum value, for the witness instances. -/
def bogusEnum2 : String := "sideways"

/-- C4 (witness): the amended dispatch behaviour at concrete
unrecognised enum values. -/
theorem C4_witness :
    IconStickOverlay.generateCenter bogusEnum2
      = Except.error ("Invalid position: " ++ bogusEnum2) ∧
    IconBarCap.generateCoords bogusEnum2 = Except.error ("Invalid side: " ++ bogusEnum2) ∧
    (IconBar.generateRect bogusEnum2 = Except.ok none ∧
      IconBar.generateRect bogusEnum2 = IconBar.generateRect "empty") :=
  ⟨C4_enum_dispatch.1 bogusEnum2 (by decide) (by decide) (by decide),
   C4_enum_dispatch.2.1 bogusEnum2 (by decide) (by decide),
   C4_enum_dispatch.2.2 bogusEnum2 (by decide) (by decide) (by decide) (by decide)⟩

/-- The tile paste position used by the atlas build for a catalog icon
with the given tile index (gen.py lines 774-775):
x = index mod TILES_PER_ROW times TILE_WIDTH and
y = index div TILES_PER_ROW times TILE_HEIGHT. -/
def tilePos (index : Nat) : Nat × Nat :=
  (index % TILES_PER_ROW * TILE_WIDTH, index / TILES_PER_ROW * TILE_HEIGHT)

/-- The tile indices declared by the static catalog ICONS (gen.py lines
430-507), in source order. -/
def ICONS_INDICES : List Nat :=
  [1, 2, 3, 4, 5, 6, 7, 12, 13, 14, 15, 16, 17, 18, 19, 20, 21, 24, 25, 26, 27,
   28, 29, 30, 31, 112, 113, 114, 115, 116, 117, 118, 119, 120, 122, 123, 124,
   125, 126, 127, 137, 138, 139, 140, 141, 142, 143, 144, 145, 146, 147, 148,
   149, 150, 151, 152, 153, 154, 155, 156, 157, 158, 159, 8, 9, 10, 11, 22, 23, 36]

/-- C8 (amended): the build pastes the rendered tile of index i at
exactly x = (i mod 16) * 36 and y = (i div 16) * 54 — stated for every
index, for every catalog index, and at the probe indices 0, 17 and 159;
the probe index 159 lands at (540, 486) (159 mod 16 = 15 and
159 div 16 = 9), not at (252, 540) as the claim computes. -/
theorem C8_tile_placement :
    (∀ i : Nat, tilePos i = (i % 16 * 36, i / 16 * 54)) ∧
    ICONS_INDICES.map tilePos = ICONS_INDICES.map (fun i => (i % 16 * 36, i / 16 * 54)) ∧
    tilePos 0 = (0, 0) ∧ tilePos 17 = (36, 54) ∧ tilePos 159 = (540, 486) := by
  refine ⟨fun i => rfl, by decide, by decide, by decide, by decide⟩

/-- C8 (counterexample): the claimed probe value for index 159 is wrong:
the paste position computed by the build is (540, 486), because
159 mod 16 = 15 gives x = 15 * 36 = 540 and 159 div 16 = 9 gives
y = 9 * 54 = 486; it differs from the claimed (252, 540). -/
theorem C8_counterexample :
    tilePos 159 = (540, 486) ∧ tilePos 159 ≠ (252, 540) := by
  refine ⟨by decide, by decide⟩

/-- Whether paste position pxy of an image src covers output pixel
(X, Y). -/
abbrev pasteCovers (pxy : Nat × Nat) (src : ImageRGBA) (X Y : Nat) : Prop :=
  pxy.1 ≤ X ∧ X < pxy.1 + src.width ∧ pxy.2 ≤ Y ∧ Y < pxy.2 + src.height

/-- `dst.paste(src, (px, py))` without a mask (PIL.Image.paste):
overwrites the rectangle of dst at (px, py) with src, including alpha;
pixels outside the pasted rectangle keep their destination value.  (The
pastes modelled here all lie fully inside the destination, so PIL's
clipping never fires.) -/
def pasteImage (dst src : ImageRGBA) (px py : Nat) : ImageRGBA :=
  { width := dst.width, height := dst.height,
    pix := fun x y =>
      if pasteCovers (px, py) src x y then src.pix (x - px) (y - py)
      else dst.pix x y }

/-- `Image.new("RGBA", (w, h), (0, 0, 0, 0))`: a blank transparent
image. -/
def ImageRGBA.blank (w h : Nat) : ImageRGBA :=
  { width := w, height := h, pix := fun _ _ => { r := 0, g := 0, b := 0, a := 0 } }

/-- `img.crop((left, upper, right, lower))` for a box inside the image. -/
def crop (img : ImageRGBA) (left upper right lower : Nat) : ImageRGBA :=
  { width := right - left, height := lower - upper,
    pix := fun x y => img.pix (left + x) (upper + y) }

theorem foldl_paste_width (g : Nat × Nat → ImageRGBA) (pos : Nat × Nat → Nat × Nat)
    (L : List (Nat × Nat)) (init : ImageRGBA) :
    (L.foldl (fun acc p => pasteImage acc (g p) (pos p).1 (pos p).2) init).width
      = init.width := by
  induction L generalizing init with
  | nil => rfl
  | cons q L ih => exact ih (pasteImage init (g q) (pos q).1 (pos q).2)

theorem foldl_paste_height (g : Nat × Nat → ImageRGBA) (pos : Nat × Nat → Nat × Nat)
    (L : List (Nat × Nat)) (init : ImageRGBA) :
    (L.foldl (fun acc p => pasteImage acc (g p) (pos p).1 (pos p).2) init).height
      = init.height := by
  induction L generalizing init with
  | nil => rfl
  | cons q L ih => exact ih (pasteImage init (g q) (pos q).1 (pos q).2)

/-- A pixel covered by none of the pastes keeps its initial value. -/
theorem foldl_paste_pix_of_not_covered (g : Nat × Nat → ImageRGBA)
    (pos : Nat × Nat → Nat × Nat) (L : List (Nat × Nat)) (init : ImageRGBA)
    (X Y : Nat) (h : ∀ p ∈ L, ¬ pasteCovers (pos p) (g p) X Y) :
    (L.foldl (fun acc p => pasteImage acc (g p) (pos p).1 (pos p).2) init).pix X Y
      = init.pix X Y := by
  induction L generalizing init with
  | nil => rfl
  | cons q L ih =>
    rw [List.foldl_cons,
      ih (pasteImage init (g q) (pos q).1 (pos q).2)
        (fun p hp => h p (List.mem_cons_of_mem q hp))]
    show (if pasteCovers ((pos q).1, (pos q).2) (g q) X Y then _ else _) = _
    rw [if_neg]
    intro hc
    exact h q (List.mem_cons_self q L) ⟨hc.1, hc.2.1, hc.2.2.1, hc.2.2.2⟩

/-- A pixel covered by exactly one paste in the list ends up with that
paste's source value. -/
theorem foldl_paste_pix_unique (g : Nat × Nat → ImageRGBA)
    (pos : Nat × Nat → Nat × Nat) (L : List (Nat × Nat)) (init : ImageRGBA)
    (X Y : Nat) (p : Nat × Nat) (hmem : p ∈ L)
    (hcov : pasteCovers (pos p) (g p) X Y)
    (huniq : ∀ q ∈ L, pasteCovers (pos q) (g q) X Y → q = p) :
    (L.foldl (fun acc p => pasteImage acc (g p) (pos p).1 (pos p).2) init).pix X Y
      = (g p).pix (X - (pos p).1) (Y - (pos p).2) := by
  induction L generalizing init with
  | nil => cases hmem
  | cons q L ih =>
    rw [List.foldl_cons]
    by_cases hpL : p ∈ L
    · exact ih _ hpL (fun r hr hcr => huniq r (List.mem_cons_of_mem q hr) hcr)
    · have hpq : p = q := by
        rcases List.mem_cons.mp hmem with h | h
        · exact h
        · exact absurd h hpL
      subst hpq
      have hnone : ∀ r ∈ L, ¬ pasteCovers (pos r) (g r) X Y := by
        intro r hr hcr
        have heq := huniq r (List.mem_cons_of_mem p hr) hcr
        rw [heq] at hr
        exact hpL hr
      rw [foldl_paste_pix_of_not_covered g pos L _ X Y hnone]
      show (if pasteCovers ((pos p).1, (pos p).2) (g p) X Y then _ else _) = _
      rw [if_pos ⟨hcov.1, hcov.2.1, hcov.2.2.1, hcov.2.2.2⟩]

/-- The (y, x) tile pairs iterated by the retiling loops of
get_logo_image (gen.py lines 605-606): y over the 4 logo tile rows, x
over the 24 logo tile columns. -/
def logoPairs : List (Nat × Nat) :=
  (List.range 4).flatMap fun y => (List.range 24).map fun x => (y, x)

/-- The tile cropped out of the outlined logo image for pair (y, x)
(gen.py lines 607-614). -/
def logoTile (logo : ImageRGBA) (p : Nat × Nat) : ImageRGBA :=
  crop logo (p.2 * TILE_WIDTH) (p.1 * TILE_HEIGHT)
    ((p.2 + 1) * TILE_WIDTH) ((p.1 + 1) * TILE_HEIGHT)

/-- The destination slot of tile pair (y, x) in the retiled logo image
(gen.py lines 616-618): tile_index = y * 24 + x, placed at
(tile_index mod 16 * 36, tile_index div 16 * 54). -/
def logoTargetPos (p : Nat × Nat) : Nat × Nat :=
  ((p.1 * 24 + p.2) % TILES_PER_ROW * TILE_WIDTH,
   (p.1 * 24 + p.2) / TILES_PER_ROW * TILE_HEIGHT)

/-- The retiling stage of get_logo_image (gen.py lines 599-622): the
864 x 216 outlined logo image is cut into 36 x 54 tiles which are pasted
in row-major order into a 576 x 324 image following the atlas grid
addressing (16 tiles per row, 96 / 16 = 6 rows). -/
def logoRetile (logo : ImageRGBA) : ImageRGBA :=
  logoPairs.foldl
    (fun acc p => pasteImage acc (logoTile logo p) (logoTargetPos p).1 (logoTargetPos p).2)
    (ImageRGBA.blank (TILE_WIDTH * TILES_PER_ROW) (TILE_HEIGHT * 6))

/-- The source slot of tile pair (y, x) inside the original logo image. -/
def logoSourcePos (p : Nat × Nat) : Nat × Nat :=
  (p.2 * TILE_WIDTH, p.1 * TILE_HEIGHT)

/-- The tile of the retiled image sitting in the atlas slot of pair
(y, x). -/
def reassembledTile (tiled : ImageRGBA) (p : Nat × Nat) : ImageRGBA :=
  crop tiled (logoTargetPos p).1 (logoTargetPos p).2
    ((logoTargetPos p).1 + TILE_WIDTH) ((logoTargetPos p).2 + TILE_HEIGHT)

/-- The round-trip direction described by the specification: cut the
retiled image back into tiles at their target grid offsets and paste
each tile at its source offset in a fresh 864 x 216 image. -/
def logoReassemble (tiled : ImageRGBA) : ImageRGBA :=
  logoPairs.foldl
    (fun acc p =>
      pasteImage acc (reassembledTile tiled p) (logoSourcePos p).1 (logoSourcePos p).2)
    (ImageRGBA.blank (24 * TILE_WIDTH) (4 * TILE_HEIGHT))

theorem mem_logoPairs (a b : Nat) : (a, b) ∈ logoPairs ↔ a < 4 ∧ b < 24 := by
  simp [logoPairs, List.mem_flatMap, List.mem_map, List.mem_range]

theorem logoRetile_pix (logo : ImageRGBA) (X Y : Nat) (hX : X < 576) (hY : Y < 324) :
    (logoRetile logo).pix X Y =
      logo.pix ((Y / 54 * 16 + X / 36) % 24 * 36 + X % 36)
               ((Y / 54 * 16 + X / 36) / 24 * 54 + Y % 54) := by
  set t := Y / 54 * 16 + X / 36 with ht
  have hp : (t / 24, t % 24) ∈ logoPairs := by
    rw [mem_logoPairs]
    omega
  have hcov : pasteCovers (logoTargetPos (t / 24, t % 24))
      (logoTile logo (t / 24, t % 24)) X Y := by
    simp only [pasteCovers, logoTargetPos, logoTile, crop, TILE_WIDTH, TILE_HEIGHT,
      TILES_PER_ROW]
    omega
  have huniq : ∀ q ∈ logoPairs,
      pasteCovers (logoTargetPos q) (logoTile logo q) X Y → q = (t / 24, t % 24) := by
    intro q hq hcq
    obtain ⟨a, b⟩ := q
    rw [mem_logoPairs] at hq
    simp only [pasteCovers, logoTargetPos, logoTile, crop, TILE_WIDTH, TILE_HEIGHT,
      TILES_PER_ROW] at hcq
    have hfx : X / 36 = (a * 24 + b) % 16 := by omega
    have hfy : Y / 54 = (a * 24 + b) / 16 := by omega
    have htab : t = a * 24 + b := by omega
    rw [Prod.mk.injEq]
    omega
  have hmain := foldl_paste_pix_unique (logoTile logo) logoTargetPos logoPairs
    (ImageRGBA.blank (TILE_WIDTH * TILES_PER_ROW) (TILE_HEIGHT * 6)) X Y
    (t / 24, t % 24) hp hcov huniq
  rw [show (logoRetile logo).pix X Y =
    (logoPairs.foldl
      (fun acc p => pasteImage acc (logoTile logo p) (logoTargetPos p).1 (logoTargetPos p).2)
      (ImageRGBA.blank (TILE_WIDTH * TILES_PER_ROW) (TILE_HEIGHT * 6))).pix X Y from rfl]
  rw [hmain]
  simp only [logoTile, logoTargetPos, crop, TILE_WIDTH, TILE_HEIGHT, TILES_PER_ROW]
  have e1 : t % 24 * (12 * 3) + (X - (t / 24 * 24 + t % 24) % 16 * (12 * 3))
      = t % 24 * 36 + X % 36 := by
    have hc := hcov
    simp only [pasteCovers, logoTargetPos, logoTile, crop, TILE_WIDTH, TILE_HEIGHT,
      TILES_PER_ROW] at hc
    omega
  have e2 : t / 24 * (18 * 3) + (Y - (t / 24 * 24 + t % 24) / 16 * (18 * 3))
      = t / 24 * 54 + Y % 54 := by
    have hc := hcov
    simp only [pasteCovers, logoTargetPos, logoTile, crop, TILE_WIDTH, TILE_HEIGHT,
      TILES_PER_ROW] at hc
    omega
  rw [e1, e2]

theorem logoReassemble_pix (tiled : ImageRGBA) (x y : Nat) (hx : x < 864) (hy : y < 216) :
    (logoReassemble tiled).pix x y =
      tiled.pix ((y / 54 * 24 + x / 36) % 16 * 36 + x % 36)
                ((y / 54 * 24 + x / 36) / 16 * 54 + y % 54) := by
  have hp : (y / 54, x / 36) ∈ logoPairs := by
    rw [mem_logoPairs]
    omega
  have hcov : pasteCovers (logoSourcePos (y / 54, x / 36))
      (reassembledTile tiled (y / 54, x / 36)) x y := by
    simp only [pasteCovers, logoSourcePos, reassembledTile, crop, TILE_WIDTH, TILE_HEIGHT,
      TILES_PER_ROW]
    omega
  have huniq : ∀ q ∈ logoPairs,
      pasteCovers (logoSourcePos q) (reassembledTile tiled q) x y →
        q = (y / 54, x / 36) := by
    intro q hq hcq
    obtain ⟨a, b⟩ := q
    rw [mem_logoPairs] at hq
    simp only [pasteCovers, logoSourcePos, reassembledTile, crop, TILE_WIDTH, TILE_HEIGHT,
      TILES_PER_ROW] at hcq
    rw [Prod.mk.injEq]
    omega
  have hmain := foldl_paste_pix_unique (reassembledTile tiled) logoSourcePos logoPairs
    (ImageRGBA.blank (24 * TILE_WIDTH) (4 * TILE_HEIGHT)) x y
    (y / 54, x / 36) hp hcov huniq
  rw [show (logoReassemble tiled).pix x y =
    (logoPairs.foldl
      (fun acc p =>
        pasteImage acc (reassembledTile tiled p) (logoSourcePos p).1 (logoSourcePos p).2)
      (ImageRGBA.blank (24 * TILE_WIDTH) (4 * TILE_HEIGHT))).pix x y from rfl]
  rw [hmain]
  simp only [reassembledTile, logoSourcePos, logoTargetPos, crop, TILE_WIDTH, TILE_HEIGHT,
    TILES_PER_ROW]
  have e1 : (y / 54 * 24 + x / 36) % 16 * (12 * 3) + (x - x / 36 * (12 * 3))
      = (y / 54 * 24 + x / 36) % 16 * 36 + x % 36 := by omega
  have e2 : (y / 54 * 24 + x / 36) / 16 * (18 * 3) + (y - y / 54 * (18 * 3))
      = (y / 54 * 24 + x / 36) / 16 * 54 + y % 54 := by omega
  rw [e1, e2]

/-- C9: decomposing the (24 x 4)-tile, 864 x 216 pixel logo image into
36 x 54 blocks in row-major order and pasting each block at its target
grid offset is a lossless retiling: cutting the blocks back out of their
target offsets and reassembling them at their source offsets reproduces
the original logo image pixel for pixel (and at the original
dimensions). -/
theorem C9_logo_roundtrip (logo : ImageRGBA) (x y : Nat)
    (hx : x < 24 * TILE_WIDTH) (hy : y < 4 * TILE_HEIGHT) :
    (logoReassemble (logoRetile logo)).width = 24 * TILE_WIDTH ∧
    (logoReassemble (logoRetile logo)).height = 4 * TILE_HEIGHT ∧
    (logoReassemble (logoRetile logo)).pix x y = logo.pix x y := by
  have hx8 : x < 864 := by simp only [TILE_WIDTH] at hx; omega
  have hy2 : y < 216 := by simp only [TILE_HEIGHT] at hy; omega
  refine ⟨foldl_paste_width _ _ _ _, foldl_paste_height _ _ _ _, ?_⟩
  rw [logoReassemble_pix (logoRetile logo) x y hx8 hy2]
  set t0 := y / 54 * 24 + x / 36 with ht0
  have hXb : t0 % 16 * 36 + x % 36 < 576 := by omega
  have hYb : t0 / 16 * 54 + y % 54 < 324 := by omega
  rw [logoRetile_pix logo _ _ hXb hYb]
  have e1 : ((t0 / 16 * 54 + y % 54) / 54 * 16 + (t0 % 16 * 36 + x % 36) / 36) % 24 * 36
      + (t0 % 16 * 36 + x % 36) % 36 = x := by omega
  have e2 : ((t0 / 16 * 54 + y % 54) / 54 * 16 + (t0 % 16 * 36 + x % 36) / 36) / 24 * 54
      + (t0 / 16 * 54 + y % 54) % 54 = y := by omega
  rw [e1, e2]

/-- A concrete 864 x 216 stand-in for the outlined logo image, with a
position-dependent pixel pattern. -/
def logoSample : ImageRGBA :=
  { width := 864, height := 216,
    pix := fun x y => { r := x % 256, g := y % 256, b := (x + y) % 256, a := 255 } }

/-- C9 (witness): the round trip applied to the concrete sample logo at
pixel (100, 50). -/
theorem C9_witness :
    (logoReassemble (logoRetile logoSample)).pix 100 50 = logoSample.pix 100 50 :=
  (C9_logo_roundtrip logoSample 100 50 (by decide) (by decide)).2.2
